import Mathlib

/-!
Shallow embedding of the notes storage module (`storage.js`): a notes app
persistence layer with an IndexedDB primary backend and a localStorage
fallback, plus pure query/sort utilities.

Modelling conventions:
* JS numbers from `Date.now()` are modelled as `Nat`; each exported
  operation receives one `now : Nat` for the `Date.now()` calls made
  during that invocation, and a `rand : String` for the random id suffix.
* The IndexedDB object store keyed by `id` is modelled as a `List Note`
  on which `put` replaces the record with the same key or appends.
* The localStorage slot under the fixed key is an `LSBlob`: absent
  (no item, or the empty string, both falsy in JS), malformed (an item
  that is not a JSON array), or a stored array of notes.
* Backend write failures are injected through a `wfail : Bool` flag per
  call; IndexedDB failures surface as `Except.error`, while `writeLS`
  catches the exception and leaves the stored blob untouched.
-/

namespace NotesApp

/-- A note record, the sole persisted entity. -/
structure Note where
  id : String
  title : String
  content : String
  createdAt : Nat
  updatedAt : Nat
deriving Repr, DecidableEq

/-- The partial-fields object passed to `updateNote`; `none` means the
field is absent from the JS object literal. -/
structure NoteUpdates where
  id : Option String := none
  title : Option String := none
  content : Option String := none
  createdAt : Option Nat := none
  updatedAt : Option Nat := none
deriving Repr, DecidableEq

/-- Contents of the localStorage slot under the fixed key. -/
inductive LSBlob where
  | absent : LSBlob
  | malformed : LSBlob
  | notes : List Note → LSBlob
deriving Repr, DecidableEq

/-- `readLS`: missing raw data, a JSON parse error, or a non-array parse
all yield the empty collection. -/
def readLS : LSBlob → List Note
  | .absent => []
  | .malformed => []
  | .notes ns => ns

/-- The backend variant recorded in the storage context. -/
inductive Ctx where
  | idb : Ctx
  | ls : Ctx
deriving Repr, DecidableEq

/-- The persistent world: the IndexedDB "notes" object store and the
localStorage slot. -/
structure World where
  idb : List Note
  ls : LSBlob
deriving Repr, DecidableEq

/-- JS falsiness of the `id`/`query` string argument: `null`/`undefined`
(modelled `none`) and the empty string are falsy. -/
def jsFalsy : Option String → Bool
  | none => true
  | some s => s == ""

/-- The id generated by `createNote`. -/
def mkNoteId (now : Nat) (rand : String) : String :=
  "note_" ++ toString now ++ "_" ++ rand

/-- `seedSample`: the sample note written on first run. -/
def seedSample (now : Nat) : Note :=
  { id := "note_" ++ toString now
    title := "Welcome to Notes"
    content := "This is your first note. Start typing to edit. Use Ctrl/Cmd+N to create a new note, Ctrl/Cmd+S to save, and Delete to remove."
    createdAt := now
    updatedAt := now }

/-- IndexedDB `put` on a store with key path `id`: replace the record
with the same key, or add the record. -/
def idbPut : List Note → Note → List Note
  | [], v => [v]
  | n :: rest, v => if n.id == v.id then v :: rest else n :: idbPut rest v

/-- `writeLS`: serialize and store the array; an exception is caught and
logged, leaving the previously stored blob untouched and returning
normally either way. -/
def writeLS (wfail : Bool) (blob : LSBlob) (data : List Note) : LSBlob :=
  if wfail then blob else .notes data

/-- The comparator `(a, b) => (b.updatedAt || 0) - (a.updatedAt || 0)`
read as a "keep `a` before `b`" boolean: nonpositive comparator value. -/
def byUpdatedDesc (a b : Note) : Bool :=
  b.updatedAt ≤ a.updatedAt

/-- `sortNotesByUpdated`: copy the array and stably sort it by
`updatedAt` descending (JS `Array.prototype.sort` is stable). -/
def sortNotesByUpdated (notes : List Note) : List Note :=
  notes.mergeSort byUpdatedDesc

/-- `initStorage`: try IndexedDB first (seeding a sample note when the
store has no records); on unsupported environments or any IndexedDB
failure fall back to localStorage, seeding a sample array only when no
raw item is stored. `idbFail` models any IndexedDB rejection during the
`try` block (before any write is committed); `lsFail` models a
localStorage exception during seeding, which is caught. -/
def initStorage (dbSupported idbFail lsFail : Bool) (w : World) (now : Nat) :
    Ctx × World :=
  if dbSupported && !idbFail then
    if w.idb.isEmpty then (.idb, { w with idb := idbPut w.idb (seedSample now) })
    else (.idb, w)
  else
    match w.ls with
    | .absent =>
        if lsFail then (.ls, w) else (.ls, { w with ls := .notes [seedSample now] })
    | _ => (.ls, w)

/-- `listNotes`: all notes of the active backend, stably sorted by
`updatedAt` descending. -/
def listNotes (c : Ctx) (w : World) : List Note :=
  match c with
  | .idb => w.idb.mergeSort byUpdatedDesc
  | .ls => (readLS w.ls).mergeSort byUpdatedDesc

/-- `getNote`: `null` for a falsy id, else the record with that id or
`null`. -/
def getNote (c : Ctx) (w : World) (oid : Option String) : Option Note :=
  if jsFalsy oid then none
  else
    let i := oid.getD ""
    match c with
    | .idb => w.idb.find? (fun n => n.id == i)
    | .ls => (readLS w.ls).find? (fun n => n.id == i)

/-- `createNote`: build a fresh blank note and persist it. Under
IndexedDB a failed `put` rejects; under localStorage the note is pushed
onto the read array and written back with `writeLS` (failure swallowed),
and the note is returned regardless. -/
def createNote (c : Ctx) (w : World) (now : Nat) (rand : String)
    (wfail : Bool) : Except Unit (Note × World) :=
  let note : Note :=
    { id := mkNoteId now rand, title := "Untitled", content := ""
      createdAt := now, updatedAt := now }
  match c with
  | .idb =>
      if wfail then .error ()
      else .ok (note, { w with idb := idbPut w.idb note })
  | .ls =>
      let items := readLS w.ls
      .ok (note, { w with ls := writeLS wfail w.ls (items ++ [note]) })

/-- The merge `{ ...existing, ...updates, updatedAt: Date.now() }`:
fields present in `updates` override `existing`, and `updatedAt` is
stamped last, overriding both. -/
def applyUpdates (n : Note) (u : NoteUpdates) (now : Nat) : Note :=
  { id := u.id.getD n.id
    title := u.title.getD n.title
    content := u.content.getD n.content
    createdAt := u.createdAt.getD n.createdAt
    updatedAt := now }

/-- The localStorage update path: `findIndex` of the first record with
the id, then in-place replacement `items[idx] = next`. Returns the
merged record and the new array, or `none` when the id is absent. -/
def lsUpdate (i : String) (u : NoteUpdates) (now : Nat) :
    List Note → Option (Note × List Note)
  | [] => none
  | n :: rest =>
      if n.id == i then
        let next := applyUpdates n u now
        some (next, next :: rest)
      else
        match lsUpdate i u now rest with
        | none => none
        | some (nx, rest') => some (nx, n :: rest')

/-- `updateNote`: `null` for a falsy or absent id; otherwise merge the
supplied fields, stamp `updatedAt`, persist and return the merged
record. The localStorage variant returns the merged record even when
`writeLS` failed; the IndexedDB variant propagates a failed `put`. -/
def updateNote (c : Ctx) (w : World) (oid : Option String) (u : NoteUpdates)
    (now : Nat) (wfail : Bool) : Except Unit (Option Note × World) :=
  if jsFalsy oid then .ok (none, w)
  else
    let i := oid.getD ""
    match c with
    | .idb =>
        match w.idb.find? (fun n => n.id == i) with
        | none => .ok (none, w)
        | some existing =>
            let next := applyUpdates existing u now
            if wfail then .error ()
            else .ok (some next, { w with idb := idbPut w.idb next })
    | .ls =>
        match lsUpdate i u now (readLS w.ls) with
        | none => .ok (none, w)
        | some (next, items') =>
            .ok (some next, { w with ls := writeLS wfail w.ls items' })

/-- `deleteNote`: return for a falsy id; otherwise remove the record
with the id (a no-op when absent). The IndexedDB variant propagates a
failed `delete`; the localStorage variant rewrites the filtered array
with `writeLS` (failure swallowed). -/
def deleteNote (c : Ctx) (w : World) (oid : Option String)
    (wfail : Bool) : Except Unit World :=
  if jsFalsy oid then .ok w
  else
    let i := oid.getD ""
    match c with
    | .idb =>
        if wfail then .error ()
        else .ok { w with idb := w.idb.filter (fun n => n.id != i) }
    | .ls =>
        let next := (readLS w.ls).filter (fun n => n.id != i)
        .ok { w with ls := writeLS wfail w.ls next }

/-- Contiguous-substring test on character lists, the model of JS
`String.prototype.includes`. -/
def containsSub : List Char → List Char → Bool
  | hay, needle =>
      if needle.isPrefixOf hay then true
      else
        match hay with
        | [] => false
        | _ :: t => containsSub t needle

/-- `s.includes(q)` on JS strings. -/
def strIncludes (s q : String) : Bool :=
  containsSub s.toList q.toList

/-- `filterNotes`: identity for a falsy query, else keep the notes whose
lower-cased title or content contains the lower-cased query. -/
def filterNotes (notes : List Note) (query : Option String) : List Note :=
  if jsFalsy query then notes
  else
    let q := (query.getD "").toLower
    notes.filter (fun n => strIncludes n.title.toLower q || strIncludes n.content.toLower q)

/-- The note collection currently persisted for the given backend. -/
def notesOf (c : Ctx) (w : World) : List Note :=
  match c with
  | .idb => w.idb
  | .ls => readLS w.ls

/-- The blank note built by `createNote`. -/
def blankNote (now : Nat) (rand : String) : Note :=
  { id := mkNoteId now rand, title := "Untitled", content := ""
    createdAt := now, updatedAt := now }

/-- A repository mutation as issued by the app controller: `update`
carries only the `title` and `content` partial fields, as the editor
does. -/
inductive Op where
  | create (now : Nat) (rand : String) : Op
  | update (i : String) (title content : Option String) (now : Nat) : Op
  | del (i : String) : Op
deriving Repr, DecidableEq

/-- Run one mutation with a succeeding backend, keeping the resulting
world (with `wfail = false` no operation can reach the error branch). -/
def stepOp (c : Ctx) (w : World) : Op → World
  | .create now rand =>
      match createNote c w now rand false with
      | .ok (_, w') => w'
      | .error _ => w
  | .update i t ct now =>
      match updateNote c w (some i) { title := t, content := ct } now false with
      | .ok (_, w') => w'
      | .error _ => w
  | .del i =>
      match deleteNote c w (some i) false with
      | .ok w' => w'
      | .error _ => w

/-- Run a sequence of mutations. -/
def runOps (c : Ctx) (w : World) : List Op → World
  | [] => w
  | op :: rest => runOps c (stepOp c w op) rest

/-- A create operation generates an id not already in the store (the
spec's "unique with extremely high probability" assumption made
explicit). -/
def opFresh (c : Ctx) (w : World) : Op → Bool
  | .create now rand => !((notesOf c w).any (fun n => n.id == mkNoteId now rand))
  | _ => true

/-- Every create in the trace generates an id fresh for the store it
runs against. -/
def freshOps (c : Ctx) (w : World) : List Op → Bool
  | [] => true
  | op :: rest => opFresh c w op && freshOps c (stepOp c w op) rest

/-- `n` carries the id and creation stamp it was given at creation:
either they match a note already in the original store, or some create
operation of the trace assigned exactly this id and `createdAt`. -/
def Originates (orig : List Note) (ops : List Op) (n : Note) : Prop :=
  (∃ m ∈ orig, n.id = m.id ∧ n.createdAt = m.createdAt) ∨
  (∃ now rand, Op.create now rand ∈ ops ∧ n.id = mkNoteId now rand ∧
    n.createdAt = now)

/-! ## Helper lemmas -/

theorem containsSub_iff (hay needle : List Char) :
    containsSub hay needle = true ↔ needle <:+: hay := by
  induction hay with
  | nil =>
      rw [containsSub]
      constructor
      · intro h
        split at h
        · rename_i hp
          rw [ List.isPrefixOf_iff_prefix] at hp
          exact hp.isInfix
        · simp at h
      · intro h
        rw [List.infix_nil] at h
        subst h
        simp
  | cons a t ih =>
      rw [containsSub]
      constructor
      · intro h
        split at h
        · rename_i hp
          rw [ List.isPrefixOf_iff_prefix] at hp
          exact hp.isInfix
        · exact List.infix_cons (ih.mp h)
      · intro h
        rcases List.infix_cons_iff.mp h with hp | hi
        · rw [← List.isPrefixOf_iff_prefix] at hp
          simp [hp]
        · split
          · rfl
          · exact ih.mpr hi

theorem find?_id_eq_some_of_nodup {l : List Note} {n : Note}
    (hnd : (l.map Note.id).Nodup) (hmem : n ∈ l) :
    l.find? (fun m => m.id == n.id) = some n := by
  induction l with
  | nil => cases hmem
  | cons a t ih =>
      rw [List.map_cons, List.nodup_cons] at hnd
      rcases List.mem_cons.mp hmem with rfl | ht
      · rw [List.find?_cons_of_pos _ (by simp)]
      · have hne : a.id ≠ n.id := by
          intro he
          exact hnd.1 (he ▸ List.mem_map_of_mem Note.id ht)
        rw [List.find?_cons_of_neg _ (by simpa using hne)]
        exact ih hnd.2 ht

theorem lsUpdate_eq_none {l : List Note} {i : String} {u : NoteUpdates}
    {now : Nat} (h : ∀ m ∈ l, m.id ≠ i) :
    lsUpdate i u now l = none := by
  induction l with
  | nil => rfl
  | cons a t ih =>
      rw [lsUpdate]
      rw [if_neg (by simpa using h a (List.mem_cons_self a t))]
      rw [ih (fun m hm => h m (List.mem_cons_of_mem a hm))]

theorem map_replace_id_eq_self {l : List Note} {i : String} {v : Note}
    (h : ∀ m ∈ l, m.id ≠ i) :
    l.map (fun m => if m.id == i then v else m) = l := by
  induction l with
  | nil => rfl
  | cons a t ih =>
      rw [List.map_cons]
      rw [if_neg (by simpa using h a (List.mem_cons_self a t))]
      rw [ih (fun m hm => h m (List.mem_cons_of_mem a hm))]

theorem lsUpdate_eq_some_of_nodup {l : List Note} {n : Note} {u : NoteUpdates}
    {now : Nat} (hnd : (l.map Note.id).Nodup) (hmem : n ∈ l) :
    lsUpdate n.id u now l =
      some (applyUpdates n u now,
        l.map (fun m => if m.id == n.id then applyUpdates n u now else m)) := by
  induction l with
  | nil => cases hmem
  | cons a t ih =>
      rw [List.map_cons, List.nodup_cons] at hnd
      rcases List.mem_cons.mp hmem with rfl | ht
      · rw [lsUpdate]
        rw [if_pos (by simp)]
        rw [List.map_cons]
        rw [if_pos (by simp)]
        have hrest : ∀ m ∈ t, m.id ≠ n.id := by
          intro m hm he
          exact hnd.1 (he ▸ List.mem_map_of_mem Note.id hm)
        rw [map_replace_id_eq_self hrest]
      · have hne : a.id ≠ n.id := by
          intro he
          exact hnd.1 (he ▸ List.mem_map_of_mem Note.id ht)
        rw [lsUpdate]
        rw [if_neg (by simpa using hne)]
        rw [ih hnd.2 ht]
        rw [List.map_cons]
        rw [if_neg (by simpa using hne)]

theorem idbPut_eq_map_of_nodup {l : List Note} {n v : Note}
    (hnd : (l.map Note.id).Nodup) (hmem : n ∈ l) (hid : v.id = n.id) :
    idbPut l v = l.map (fun m => if m.id == n.id then v else m) := by
  induction l with
  | nil => cases hmem
  | cons a t ih =>
      rw [List.map_cons, List.nodup_cons] at hnd
      rcases List.mem_cons.mp hmem with rfl | ht
      · rw [idbPut]
        rw [if_pos (by simp [hid])]
        rw [List.map_cons]
        rw [if_pos (by simp)]
        have hrest : ∀ m ∈ t, m.id ≠ n.id := by
          intro m hm he
          exact hnd.1 (he ▸ List.mem_map_of_mem Note.id hm)
        rw [map_replace_id_eq_self hrest]
      · have hne : a.id ≠ n.id := by
          intro he
          exact hnd.1 (he ▸ List.mem_map_of_mem Note.id ht)
        rw [idbPut]
        rw [if_neg (by simp [hid]; exact hne)]
        rw [ih hnd.2 ht]
        rw [List.map_cons]
        rw [if_neg (by simpa using hne)]

theorem idbPut_eq_append_of_fresh {l : List Note} {v : Note}
    (h : ∀ m ∈ l, m.id ≠ v.id) :
    idbPut l v = l ++ [v] := by
  induction l with
  | nil => rfl
  | cons a t ih =>
      rw [idbPut]
      rw [if_neg (by simpa using h a (List.mem_cons_self a t))]
      rw [ih (fun m hm => h m (List.mem_cons_of_mem a hm))]
      rfl

theorem mem_idbPut_self (l : List Note) (v : Note) : v ∈ idbPut l v := by
  induction l with
  | nil => exact List.mem_singleton.mpr rfl
  | cons a t ih =>
      rw [idbPut]
      split
      · exact List.mem_cons_self v t
      · exact List.mem_cons_of_mem a ih

theorem lsUpdate_shape {l l' : List Note} {i : String} {u : NoteUpdates}
    {now : Nat} {nx : Note} (h : lsUpdate i u now l = some (nx, l'))
    (hid : u.id = none) (hca : u.createdAt = none) :
    l'.map Note.id = l.map Note.id ∧
    ∀ m ∈ l', ∃ m0 ∈ l, m.id = m0.id ∧ m.createdAt = m0.createdAt := by
  induction l generalizing l' with
  | nil => cases h
  | cons a t ih =>
      rw [lsUpdate] at h
      by_cases hai : (a.id == i) = true
      · rw [if_pos hai] at h
        simp only [Option.some.injEq, Prod.mk.injEq] at h
        obtain ⟨rfl, rfl⟩ := h
        constructor
        · rw [List.map_cons, List.map_cons]
          congr 1
          simp [applyUpdates, hid]
        · intro m hm
          rcases List.mem_cons.mp hm with rfl | hmt
          · exact ⟨a, List.mem_cons_self a t, by simp [applyUpdates, hid],
              by simp [applyUpdates, hca]⟩
          · exact ⟨m, List.mem_cons_of_mem a hmt, rfl, rfl⟩
      · rw [if_neg hai] at h
        cases hrec : lsUpdate i u now t with
        | none =>
            rw [hrec] at h
            cases h
        | some p =>
            obtain ⟨nx0, rest'⟩ := p
            rw [hrec] at h
            simp only [Option.some.injEq, Prod.mk.injEq] at h
            obtain ⟨rfl, rfl⟩ := h
            obtain ⟨hmap, hmem⟩ := ih hrec
            constructor
            · rw [List.map_cons, List.map_cons, hmap]
            · intro m hm
              rcases List.mem_cons.mp hm with rfl | hmt
              · exact ⟨m, List.mem_cons_self m t, rfl, rfl⟩
              · obtain ⟨m0, hm0, h1, h2⟩ := hmem m hmt
                exact ⟨m0, List.mem_cons_of_mem a hm0, h1, h2⟩

theorem idbPut_shape {l : List Note} {v : Note}
    (hmem : v.id ∈ l.map Note.id) :
    (idbPut l v).map Note.id = l.map Note.id ∧
    ∀ m ∈ idbPut l v, m = v ∨ m ∈ l := by
  induction l with
  | nil => cases hmem
  | cons a t ih =>
      rw [idbPut]
      by_cases hai : (a.id == v.id) = true
      · rw [if_pos hai]
        constructor
        · rw [List.map_cons, List.map_cons]
          congr 1
          have he : a.id = v.id := by simpa using hai
          exact he.symm
        · intro m hm
          rcases List.mem_cons.mp hm with rfl | hmt
          · exact Or.inl rfl
          · exact Or.inr (List.mem_cons_of_mem a hmt)
      · rw [if_neg hai]
        rw [List.map_cons] at hmem
        have hmem' : v.id ∈ t.map Note.id := by
          rcases List.mem_cons.mp hmem with he | ht2
          · exact absurd (by simpa using he.symm) hai
          · exact ht2
        obtain ⟨hmap, hm⟩ := ih hmem'
        constructor
        · rw [List.map_cons, List.map_cons, hmap]
        · intro m hm2
          rcases List.mem_cons.mp hm2 with rfl | hmt
          · exact Or.inr (List.mem_cons_self m t)
          · rcases hm m hmt with h | h
            · exact Or.inl h
            · exact Or.inr (List.mem_cons_of_mem a h)

theorem stepOp_invariant (c : Ctx) (w : World) (op : Op)
    (hnd : ((notesOf c w).map Note.id).Nodup)
    (hf : opFresh c w op = true) :
    ((notesOf c (stepOp c w op)).map Note.id).Nodup ∧
    ∀ n ∈ notesOf c (stepOp c w op), Originates (notesOf c w) [op] n := by
  cases op with
  | create now rand =>
      have hfresh : ∀ m ∈ notesOf c w, m.id ≠ mkNoteId now rand := by
        intro m hm he
        rw [opFresh] at hf
        simp only [Bool.not_eq_true', List.any_eq_false] at hf
        have h2 := hf m hm
        simp [he] at h2
      have hlist : notesOf c (stepOp c w (.create now rand))
          = notesOf c w ++ [blankNote now rand] := by
        cases c with
        | idb =>
            have : notesOf .idb (stepOp .idb w (.create now rand))
                = idbPut w.idb (blankNote now rand) := rfl
            rw [this]
            exact idbPut_eq_append_of_fresh (fun m hm => hfresh m hm)
        | ls => rfl
      constructor
      · rw [hlist, List.map_append]
        refine List.Nodup.append hnd (List.nodup_singleton _) ?_
        intro x hx hx2
        obtain ⟨m, hm, rfl⟩ := List.mem_map.mp hx
        have : m.id = (blankNote now rand).id := List.mem_singleton.mp hx2
        exact hfresh m hm this
      · intro n hn
        rw [hlist] at hn
        rcases List.mem_append.mp hn with hl | hr
        · exact Or.inl ⟨n, hl, rfl, rfl⟩
        · have : n = blankNote now rand := List.mem_singleton.mp hr
          subst this
          exact Or.inr ⟨now, rand, List.mem_singleton.mpr rfl, rfl, rfl⟩
  | update i t ct now =>
      by_cases hi : jsFalsy (some i) = true
      · have hstep : stepOp c w (.update i t ct now) = w := by
          show (match updateNote c w (some i) { title := t, content := ct }
              now false with
            | .ok (_, w') => w'
            | .error _ => w) = w
          rw [updateNote, if_pos hi]
        rw [hstep]
        exact ⟨hnd, fun n hn => Or.inl ⟨n, hn, rfl, rfl⟩⟩
      · cases c with
        | idb =>
            cases hfind : w.idb.find? (fun m => m.id == i) with
            | none =>
                have hstep : stepOp .idb w (.update i t ct now) = w := by
                  show (match updateNote .idb w (some i)
                      { title := t, content := ct } now false with
                    | .ok (_, w') => w'
                    | .error _ => w) = w
                  rw [updateNote, if_neg hi]
                  simp only [Option.getD_some]
                  rw [hfind]
                rw [hstep]
                exact ⟨hnd, fun n hn => Or.inl ⟨n, hn, rfl, rfl⟩⟩
            | some ex =>
                have hex : ex ∈ w.idb := List.mem_of_find?_eq_some hfind
                have hstep : notesOf .idb (stepOp .idb w (.update i t ct now))
                    = idbPut w.idb
                        (applyUpdates ex { title := t, content := ct } now) := by
                  show notesOf .idb (match updateNote .idb w (some i)
                      { title := t, content := ct } now false with
                    | .ok (_, w') => w'
                    | .error _ => w) = _
                  rw [updateNote, if_neg hi]
                  simp only [Option.getD_some]
                  rw [hfind]
                  rfl
                have hmemid : (applyUpdates ex { title := t, content := ct }
                    now).id ∈ w.idb.map Note.id := by
                  have he : (applyUpdates ex { title := t, content := ct }
                      now).id = ex.id := rfl
                  rw [he]
                  exact List.mem_map_of_mem Note.id hex
                obtain ⟨hmap, hmem⟩ := idbPut_shape hmemid
                constructor
                · have hh : ((notesOf .idb (stepOp .idb w
                      (.update i t ct now))).map Note.id)
                      = w.idb.map Note.id := by
                    rw [hstep, hmap]
                  rw [hh]
                  exact hnd
                · intro n hn
                  rw [hstep] at hn
                  rcases hmem n hn with rfl | hmem2
                  · exact Or.inl ⟨ex, hex, rfl, rfl⟩
                  · exact Or.inl ⟨n, hmem2, rfl, rfl⟩
        | ls =>
            cases hupd : lsUpdate i { title := t, content := ct } now
                (readLS w.ls) with
            | none =>
                have hstep : stepOp .ls w (.update i t ct now) = w := by
                  show (match updateNote .ls w (some i)
                      { title := t, content := ct } now false with
                    | .ok (_, w') => w'
                    | .error _ => w) = w
                  rw [updateNote, if_neg hi]
                  simp only [Option.getD_some]
                  rw [hupd]
                rw [hstep]
                exact ⟨hnd, fun n hn => Or.inl ⟨n, hn, rfl, rfl⟩⟩
            | some p =>
                obtain ⟨nx, items'⟩ := p
                have hstep : notesOf .ls (stepOp .ls w (.update i t ct now))
                    = items' := by
                  show notesOf .ls (match updateNote .ls w (some i)
                      { title := t, content := ct } now false with
                    | .ok (_, w') => w'
                    | .error _ => w) = _
                  rw [updateNote, if_neg hi]
                  simp only [Option.getD_some]
                  rw [hupd]
                  rfl
                obtain ⟨hmap, hmem⟩ := lsUpdate_shape hupd rfl rfl
                constructor
                · have hh : ((notesOf .ls (stepOp .ls w
                      (.update i t ct now))).map Note.id)
                      = (readLS w.ls).map Note.id := by
                    rw [hstep, hmap]
                  rw [hh]
                  exact hnd
                · intro n hn
                  rw [hstep] at hn
                  obtain ⟨m0, hm0, h1, h2⟩ := hmem n hn
                  exact Or.inl ⟨m0, hm0, h1, h2⟩
  | del i =>
      by_cases hi : jsFalsy (some i) = true
      · have hstep : stepOp c w (.del i) = w := by
          show (match deleteNote c w (some i) false with
            | .ok w' => w'
            | .error _ => w) = w
          rw [deleteNote, if_pos hi]
        rw [hstep]
        exact ⟨hnd, fun n hn => Or.inl ⟨n, hn, rfl, rfl⟩⟩
      · have hstep : notesOf c (stepOp c w (.del i))
            = (notesOf c w).filter (fun n => n.id != i) := by
          cases c with
          | idb =>
              show notesOf .idb (match deleteNote .idb w (some i) false with
                | .ok w' => w'
                | .error _ => w) = _
              rw [deleteNote, if_neg hi]
              rfl
          | ls =>
              show notesOf .ls (match deleteNote .ls w (some i) false with
                | .ok w' => w'
                | .error _ => w) = _
              rw [deleteNote, if_neg hi]
              rfl
        constructor
        · rw [hstep]
          exact hnd.sublist ((List.filter_sublist (notesOf c w)).map Note.id)
        · intro n hn
          rw [hstep] at hn
          exact Or.inl ⟨n, (List.mem_filter.mp hn).1, rfl, rfl⟩

/-! ## Claims -/

/-- C10: for both backend variants, when the id argument is absent
(`null`/`undefined`, modelled `none`) or the empty string, `getNote` and
`updateNote` return `null` and `deleteNote` returns without effect, and
in all three cases the persisted world is left completely unchanged. -/
theorem falsy_id_no_effect (c : Ctx) (w : World) (oid : Option String)
    (u : NoteUpdates) (now : Nat) (wf₁ wf₂ : Bool)
    (h : jsFalsy oid = true) :
    getNote c w oid = none ∧
    updateNote c w oid u now wf₁ = .ok (none, w) ∧
    deleteNote c w oid wf₂ = .ok w := by
  refine ⟨?_, ?_, ?_⟩
  · rw [getNote, if_pos h]
  · rw [updateNote, if_pos h]
  · rw [deleteNote, if_pos h]

theorem falsy_id_no_effect_witness :
    getNote .ls ⟨[], .malformed⟩ (some "") = none ∧
    updateNote .ls ⟨[], .malformed⟩ (some "") { title := some "t" } 3 true
      = .ok (none, ⟨[], .malformed⟩) ∧
    deleteNote .ls ⟨[], .malformed⟩ (some "") false = .ok ⟨[], .malformed⟩ :=
  falsy_id_no_effect .ls ⟨[], .malformed⟩ (some "") { title := some "t" } 3
    true false (by decide)

/-- C3: for both backend variants and any id not present in the store,
`updateNote` returns `null` and leaves the persisted world (hence the
stored collection and its size) unchanged. -/
theorem updateNote_absent_id (c : Ctx) (w : World) (i : String)
    (u : NoteUpdates) (now : Nat) (wf : Bool)
    (h : ∀ n ∈ notesOf c w, n.id ≠ i) :
    updateNote c w (some i) u now wf = .ok (none, w) := by
  rw [updateNote]
  by_cases hf : jsFalsy (some i) = true
  · rw [if_pos hf]
  · rw [if_neg hf]
    cases c with
    | idb =>
        have : w.idb.find? (fun n => n.id == i) = none := by
          rw [List.find?_eq_none]
          intro n hn
          simpa using h n hn
        simp only [Option.getD_some]
        rw [this]
    | ls =>
        have h' : ∀ m ∈ readLS w.ls, m.id ≠ i := h
        simp only [Option.getD_some]
        rw [lsUpdate_eq_none h']

theorem updateNote_absent_id_witness :
    updateNote .ls ⟨[], .notes [⟨"note_1_a", "Untitled", "", 1, 1⟩]⟩
      (some "nope") { content := some "x" } 9 false
      = .ok (none, ⟨[], .notes [⟨"note_1_a", "Untitled", "", 1, 1⟩]⟩) :=
  updateNote_absent_id .ls ⟨[], .notes [⟨"note_1_a", "Untitled", "", 1, 1⟩]⟩
    "nope" { content := some "x" } 9 false (by decide)

/-- C8: `filterNotes` is the identity for an absent or empty query, and
for a non-empty query returns exactly the input notes (in input order, a
sublist) whose lower-cased title or content contains the lower-cased
query as a contiguous substring. -/
theorem filterNotes_characterization (notes : List Note) (q : String) :
    filterNotes notes none = notes ∧
    filterNotes notes (some "") = notes ∧
    (q ≠ "" →
      (filterNotes notes (some q)).Sublist notes ∧
      ∀ n, n ∈ filterNotes notes (some q) ↔
        n ∈ notes ∧
          (q.toLower.toList <:+: n.title.toLower.toList ∨
           q.toLower.toList <:+: n.content.toLower.toList)) := by
  refine ⟨by rw [filterNotes]; rfl, by rw [filterNotes]; rfl, fun hq => ?_⟩
  have hf : jsFalsy (some q) = false := by
    simp [jsFalsy]
    exact hq
  rw [filterNotes, hf]
  simp only [Bool.false_eq_true, if_false]
  refine ⟨List.filter_sublist _, fun n => ?_⟩
  rw [List.mem_filter]
  simp only [Option.getD_some, Bool.or_eq_true]
  rw [strIncludes, strIncludes, containsSub_iff, containsSub_iff]

theorem filterNotes_characterization_witness :
    filterNotes [⟨"a", "Shopping list", "", 1, 1⟩] none
        = [⟨"a", "Shopping list", "", 1, 1⟩] ∧
    filterNotes [⟨"a", "Shopping list", "", 1, 1⟩] (some "")
        = [⟨"a", "Shopping list", "", 1, 1⟩] ∧
    ("shop" ≠ "" →
      (filterNotes [⟨"a", "Shopping list", "", 1, 1⟩] (some "shop")).Sublist
        [⟨"a", "Shopping list", "", 1, 1⟩] ∧
      ∀ n, n ∈ filterNotes [⟨"a", "Shopping list", "", 1, 1⟩] (some "shop") ↔
        n ∈ [⟨"a", "Shopping list", "", 1, 1⟩] ∧
          ("shop".toLower.toList <:+: n.title.toLower.toList ∨
           "shop".toLower.toList <:+: n.content.toLower.toList)) :=
  filterNotes_characterization [⟨"a", "Shopping list", "", 1, 1⟩] "shop"

/-- C9: `deleteNote` is idempotent — deleting the same id a second time
leaves the world produced by the first delete unchanged — and deleting
an id absent from the store succeeds (it does not fail), under both
backend variants when the backend write succeeds. -/
theorem deleteNote_idempotent (c : Ctx) (w : World) (oid : Option String) :
    (deleteNote c w oid false).bind (fun w1 => deleteNote c w1 oid false)
      = deleteNote c w oid false ∧
    ((∀ n ∈ notesOf c w, n.id ≠ oid.getD "") →
      deleteNote c w oid false ≠ .error ()) := by
  constructor
  · by_cases hf : jsFalsy oid = true
    · rw [deleteNote, if_pos hf, Except.bind, deleteNote, if_pos hf]
    · cases c with
      | idb =>
          rw [deleteNote, if_neg hf]
          simp only [Bool.false_eq_true, if_false, Except.bind]
          rw [deleteNote, if_neg hf]
          simp only [Bool.false_eq_true, if_false, Except.ok.injEq]
          rw [List.filter_filter]
          simp
      | ls =>
          rw [deleteNote, if_neg hf]
          simp only [Except.bind]
          rw [deleteNote, if_neg hf]
          simp only [writeLS, Bool.false_eq_true, if_false, Except.ok.injEq,
            readLS]
          rw [List.filter_filter]
          simp
  · intro _
    by_cases hf : jsFalsy oid = true
    · rw [deleteNote, if_pos hf]
      exact fun h => Except.noConfusion h
    · cases c with
      | idb =>
          rw [deleteNote, if_neg hf]
          simp
      | ls =>
          rw [deleteNote, if_neg hf]
          simp

theorem deleteNote_idempotent_witness :
    ((deleteNote .ls ⟨[], .notes [⟨"note_1_a", "Untitled", "", 1, 1⟩]⟩
        (some "ghost") false).bind
      (fun w1 => deleteNote .ls w1 (some "ghost") false)
      = deleteNote .ls ⟨[], .notes [⟨"note_1_a", "Untitled", "", 1, 1⟩]⟩
          (some "ghost") false) ∧
    deleteNote .ls ⟨[], .notes [⟨"note_1_a", "Untitled", "", 1, 1⟩]⟩
        (some "ghost") false ≠ .error () :=
  ⟨(deleteNote_idempotent .ls ⟨[], .notes [⟨"note_1_a", "Untitled", "", 1, 1⟩]⟩
      (some "ghost")).1,
   (deleteNote_idempotent .ls ⟨[], .notes [⟨"note_1_a", "Untitled", "", 1, 1⟩]⟩
      (some "ghost")).2 (by decide)⟩

/-- C2: for both backend variants, a successful `createNote` returns a
note with title "Untitled", empty content, and `createdAt = updatedAt`
(both the current time), and `listNotes` on the resulting world contains
that note. -/
theorem createNote_fields_and_listed (c : Ctx) (w : World) (now : Nat)
    (rand : String) (n : Note) (w' : World)
    (heq : createNote c w now rand false = .ok (n, w')) :
    n.title = "Untitled" ∧ n.content = "" ∧ n.createdAt = now ∧
    n.updatedAt = now ∧ n.createdAt = n.updatedAt ∧ n ∈ listNotes c w' := by
  cases c with
  | idb =>
      rw [createNote] at heq
      simp only [Bool.false_eq_true, if_false, Except.ok.injEq, Prod.mk.injEq] at heq
      obtain ⟨rfl, rfl⟩ := heq
      refine ⟨rfl, rfl, rfl, rfl, rfl, ?_⟩
      rw [listNotes]
      rw [List.mem_mergeSort]
      exact mem_idbPut_self _ _
  | ls =>
      rw [createNote] at heq
      simp only [Except.ok.injEq, Prod.mk.injEq] at heq
      obtain ⟨rfl, rfl⟩ := heq
      refine ⟨rfl, rfl, rfl, rfl, rfl, ?_⟩
      rw [listNotes]
      rw [List.mem_mergeSort]
      rw [writeLS]
      simp only [Bool.false_eq_true, if_false, readLS]
      exact List.mem_append_right _ (List.mem_singleton.mpr rfl)

theorem createNote_fields_and_listed_witness :
    ({ id := mkNoteId 1 "a", title := "Untitled", content := ""
       createdAt := 1, updatedAt := 1 } : Note).title = "Untitled" ∧
    ({ id := mkNoteId 1 "a", title := "Untitled", content := ""
       createdAt := 1, updatedAt := 1 } : Note).content = "" ∧
    ({ id := mkNoteId 1 "a", title := "Untitled", content := ""
       createdAt := 1, updatedAt := 1 } : Note).createdAt = 1 ∧
    ({ id := mkNoteId 1 "a", title := "Untitled", content := ""
       createdAt := 1, updatedAt := 1 } : Note).updatedAt = 1 ∧
    ({ id := mkNoteId 1 "a", title := "Untitled", content := ""
       createdAt := 1, updatedAt := 1 } : Note).createdAt
      = ({ id := mkNoteId 1 "a", title := "Untitled", content := ""
           createdAt := 1, updatedAt := 1 } : Note).updatedAt ∧
    ({ id := mkNoteId 1 "a", title := "Untitled", content := ""
       createdAt := 1, updatedAt := 1 } : Note)
      ∈ listNotes .ls
          ⟨[], .notes [{ id := mkNoteId 1 "a", title := "Untitled", content := ""
                         createdAt := 1, updatedAt := 1 }]⟩ :=
  createNote_fields_and_listed .ls ⟨[], .notes []⟩ 1 "a"
    { id := mkNoteId 1 "a", title := "Untitled", content := ""
      createdAt := 1, updatedAt := 1 }
    ⟨[], .notes [{ id := mkNoteId 1 "a", title := "Untitled", content := ""
                   createdAt := 1, updatedAt := 1 }]⟩ rfl

/-- C4: for both backend variants, updating an existing note (unique id
in a store with no duplicate ids) with the partial fields
`{title: T}` succeeds with exactly that note's `title` replaced by `T`
and its `updatedAt` restamped; its `id`, `content` and `createdAt`, and
every other stored note, are unchanged. -/
theorem updateNote_title_frame (c : Ctx) (w : World) (n : Note)
    (T : String) (now : Nat) (r : Option Note) (w' : World)
    (hnd : ((notesOf c w).map Note.id).Nodup)
    (hmem : n ∈ notesOf c w) (hne : n.id ≠ "")
    (heq : updateNote c w (some n.id) { title := some T } now false
        = .ok (r, w')) :
    r = some { n with title := T, updatedAt := now } ∧
    notesOf c w' = (notesOf c w).map
      (fun m => if m.id == n.id
        then { n with title := T, updatedAt := now } else m) := by
  have hf : jsFalsy (some n.id) = false := by
    simp [jsFalsy]
    exact hne
  rw [updateNote, hf] at heq
  simp only [Bool.false_eq_true, if_false, Option.getD_some] at heq
  cases c with
  | idb =>
      have hnd' : (w.idb.map Note.id).Nodup := hnd
      have hmem' : n ∈ w.idb := hmem
      rw [find?_id_eq_some_of_nodup hnd' hmem'] at heq
      simp only [Bool.false_eq_true, if_false, Except.ok.injEq, Prod.mk.injEq] at heq
      obtain ⟨rfl, rfl⟩ := heq
      refine ⟨rfl, ?_⟩
      exact idbPut_eq_map_of_nodup hnd' hmem' rfl
  | ls =>
      have hnd' : ((readLS w.ls).map Note.id).Nodup := hnd
      have hmem' : n ∈ readLS w.ls := hmem
      rw [lsUpdate_eq_some_of_nodup hnd' hmem'] at heq
      simp only [Except.ok.injEq, Prod.mk.injEq] at heq
      obtain ⟨rfl, rfl⟩ := heq
      exact ⟨rfl, rfl⟩

theorem updateNote_title_frame_witness :
    (some { id := "note_1_a", title := "Shopping list", content := "milk"
            createdAt := 1, updatedAt := 5 } : Option Note)
      = some { (⟨"note_1_a", "Untitled", "milk", 1, 1⟩ : Note) with
               title := "Shopping list", updatedAt := 5 } ∧
    notesOf .ls ⟨[], .notes [⟨"note_1_a", "Shopping list", "milk", 1, 5⟩,
                             ⟨"note_2_b", "Other", "", 2, 2⟩]⟩
      = (notesOf .ls ⟨[], .notes [⟨"note_1_a", "Untitled", "milk", 1, 1⟩,
                                  ⟨"note_2_b", "Other", "", 2, 2⟩]⟩).map
          (fun m => if m.id == (⟨"note_1_a", "Untitled", "milk", 1, 1⟩ : Note).id
            then { (⟨"note_1_a", "Untitled", "milk", 1, 1⟩ : Note) with
                   title := "Shopping list", updatedAt := 5 } else m) :=
  updateNote_title_frame .ls
    ⟨[], .notes [⟨"note_1_a", "Untitled", "milk", 1, 1⟩,
                 ⟨"note_2_b", "Other", "", 2, 2⟩]⟩
    ⟨"note_1_a", "Untitled", "milk", 1, 1⟩ "Shopping list" 5
    (some ⟨"note_1_a", "Shopping list", "milk", 1, 5⟩)
    ⟨[], .notes [⟨"note_1_a", "Shopping list", "milk", 1, 5⟩,
                 ⟨"note_2_b", "Other", "", 2, 2⟩]⟩
    (by decide) (by decide) (by decide) rfl

theorem byUpdatedDesc_trans (a b c : Note) (hab : byUpdatedDesc a b)
    (hbc : byUpdatedDesc b c) : byUpdatedDesc a c := by
  simp only [byUpdatedDesc, decide_eq_true_eq] at *
  omega

theorem byUpdatedDesc_total (a b : Note) :
    byUpdatedDesc a b || byUpdatedDesc b a := by
  simp only [byUpdatedDesc, Bool.or_eq_true, decide_eq_true_eq]
  omega

/-- C7: `sortNotesByUpdated` returns a permutation of its input that is
non-increasing in `updatedAt`, and it is stable: for every key value,
the notes with that `updatedAt` appear in the output exactly as they
appear in the input. (The embedding is pure: the input list itself is
never mutated, mirroring the copy the source makes before sorting.) -/
theorem sortNotesByUpdated_spec (l : List Note) :
    (sortNotesByUpdated l).Perm l ∧
    (sortNotesByUpdated l).Pairwise (fun a b => b.updatedAt ≤ a.updatedAt) ∧
    ∀ t : Nat, (sortNotesByUpdated l).filter (fun n => n.updatedAt == t)
        = l.filter (fun n => n.updatedAt == t) := by
  refine ⟨List.mergeSort_perm l byUpdatedDesc, ?_, ?_⟩
  · have h := List.sorted_mergeSort byUpdatedDesc_trans byUpdatedDesc_total l
    exact h.imp (fun hab => by simpa [byUpdatedDesc] using hab)
  · intro t
    have hpw : (l.filter (fun n => n.updatedAt == t)).Pairwise
        (fun a b => byUpdatedDesc a b = true) := by
      apply List.pairwise_of_forall_mem_list
      intro a ha b hb
      have ha2 := (List.mem_filter.mp ha).2
      have hb2 := (List.mem_filter.mp hb).2
      simp only [beq_iff_eq] at ha2 hb2
      simp [byUpdatedDesc, ha2, hb2]
    have key : List.Sublist (l.filter (fun n => n.updatedAt == t))
        (l.mergeSort byUpdatedDesc) :=
      List.sublist_mergeSort byUpdatedDesc_trans byUpdatedDesc_total hpw
        (List.filter_sublist l)
    have hcf : (l.filter (fun n => n.updatedAt == t)).filter
        (fun n => n.updatedAt == t) = l.filter (fun n => n.updatedAt == t) := by
      rw [List.filter_filter]
      simp
    have h1 : List.Sublist (l.filter (fun n => n.updatedAt == t))
        ((l.mergeSort byUpdatedDesc).filter (fun n => n.updatedAt == t)) :=
      hcf ▸ key.filter (fun n => n.updatedAt == t)
    have h2 := ((List.mergeSort_perm l byUpdatedDesc).filter
      (fun n => n.updatedAt == t)).length_eq
    exact (h1.eq_of_length h2.symm).symm

/-- C6 counterexample: under the localStorage variant a backend write
failure during `createNote` is caught and logged by `writeLS`; the call
reports success (returns the note), leaving the previously persisted
empty collection untouched — it does not propagate a failed operation. -/
theorem write_failure_swallowed_cex :
    createNote .ls ⟨[], .notes []⟩ 1 "a" true
      = .ok ({ id := mkNoteId 1 "a", title := "Untitled", content := ""
               createdAt := 1, updatedAt := 1 }, ⟨[], .notes []⟩) := rfl

/-- C6 amended: under the IndexedDB variant a backend write failure
during `createNote`, `updateNote` (on an existing id) or `deleteNote`
rejects and propagates to the caller as a failed operation; under the
localStorage variant the failure is caught inside `writeLS`, the
operation reports success, and the previously persisted state is left
untouched. -/
theorem write_failure_behavior (w : World) (now : Nat) (rand : String)
    (i : String) (u : NoteUpdates) (n : Note) (hne : i ≠ "")
    (hfind : w.idb.find? (fun m => m.id == i) = some n) :
    createNote .idb w now rand true = .error () ∧
    updateNote .idb w (some i) u now true = .error () ∧
    deleteNote .idb w (some i) true = .error () ∧
    createNote .ls w now rand true
      = .ok ({ id := mkNoteId now rand, title := "Untitled", content := ""
               createdAt := now, updatedAt := now }, w) ∧
    (∃ r, updateNote .ls w (some i) u now true = .ok (r, w)) ∧
    deleteNote .ls w (some i) true = .ok w := by
  have hf : jsFalsy (some i) = false := by
    simp [jsFalsy]
    exact hne
  refine ⟨rfl, ?_, ?_, rfl, ?_, ?_⟩
  · rw [updateNote, hf]
    simp only [Bool.false_eq_true, if_false, Option.getD_some]
    rw [hfind]
    rfl
  · rw [deleteNote, hf]
    rfl
  · rw [updateNote, hf]
    simp only [Bool.false_eq_true, if_false, Option.getD_some]
    cases hls : lsUpdate i u now (readLS w.ls) with
    | none => exact ⟨none, rfl⟩
    | some p =>
        obtain ⟨nx, items'⟩ := p
        exact ⟨some nx, rfl⟩
  · rw [deleteNote, hf]
    rfl

theorem write_failure_behavior_witness :
    createNote .idb ⟨[⟨"note_1_a", "Untitled", "", 1, 1⟩], .absent⟩ 2 "b" true
      = .error () ∧
    updateNote .idb ⟨[⟨"note_1_a", "Untitled", "", 1, 1⟩], .absent⟩
      (some "note_1_a") { title := some "x" } 2 true = .error () ∧
    deleteNote .idb ⟨[⟨"note_1_a", "Untitled", "", 1, 1⟩], .absent⟩
      (some "note_1_a") true = .error () ∧
    createNote .ls ⟨[⟨"note_1_a", "Untitled", "", 1, 1⟩], .absent⟩ 2 "b" true
      = .ok ({ id := mkNoteId 2 "b", title := "Untitled", content := ""
               createdAt := 2, updatedAt := 2 },
             ⟨[⟨"note_1_a", "Untitled", "", 1, 1⟩], .absent⟩) ∧
    (∃ r, updateNote .ls ⟨[⟨"note_1_a", "Untitled", "", 1, 1⟩], .absent⟩
        (some "note_1_a") { title := some "x" } 2 true
        = .ok (r, ⟨[⟨"note_1_a", "Untitled", "", 1, 1⟩], .absent⟩)) ∧
    deleteNote .ls ⟨[⟨"note_1_a", "Untitled", "", 1, 1⟩], .absent⟩
      (some "note_1_a") true
      = .ok ⟨[⟨"note_1_a", "Untitled", "", 1, 1⟩], .absent⟩ :=
  write_failure_behavior ⟨[⟨"note_1_a", "Untitled", "", 1, 1⟩], .absent⟩
    2 "b" "note_1_a" { title := some "x" } ⟨"note_1_a", "Untitled", "", 1, 1⟩
    (by decide) (by decide)

/-- C1 counterexample: with the localStorage variant and a malformed
stored blob, the collection reads as empty at open time, yet
`initStorage` seeds nothing: the blob is left malformed and the store
still holds no note after initialization. -/
theorem initStorage_malformed_no_seed_cex :
    readLS .malformed = [] ∧
    initStorage false false false ⟨[], .malformed⟩ 5 = (.ls, ⟨[], .malformed⟩) ∧
    notesOf .ls (initStorage false false false ⟨[], .malformed⟩ 5).2 = [] := by
  refine ⟨rfl, ?_, rfl⟩
  rw [initStorage]
  rfl

/-- C1 amended: `initStorage` seeds exactly one sample note when the
stored data is absent — for IndexedDB, when the store holds no records;
for localStorage, when no raw item is stored under the key — and never
seeds otherwise: in particular it never reseeds once any note exists,
and a malformed (non-missing) localStorage blob, although read back as
an empty collection, is not reseeded. -/
theorem initStorage_seeding (w : World) (now : Nat) :
    (w.idb = [] → initStorage true false false w now
        = (.idb, { w with idb := [seedSample now] })) ∧
    (w.idb ≠ [] → initStorage true false false w now = (.idb, w)) ∧
    (w.ls = .absent → initStorage false false false w now
        = (.ls, { w with ls := .notes [seedSample now] })) ∧
    (w.ls ≠ .absent → initStorage false false false w now = (.ls, w)) := by
  refine ⟨?_, ?_, ?_, ?_⟩
  · intro h
    rw [initStorage]
    simp [h]
    rfl
  · intro h
    rw [initStorage]
    simp [List.isEmpty_iff, h]
  · intro h
    rw [initStorage]
    rw [h]
    rfl
  · intro h
    rw [initStorage]
    cases hls : w.ls with
    | absent => exact absurd hls h
    | malformed => rfl
    | notes ns => rfl

theorem initStorage_seeding_witness :
    initStorage true false false ⟨[], .absent⟩ 7
      = (.idb, { idb := [seedSample 7], ls := .absent }) :=
  (initStorage_seeding ⟨[], .absent⟩ 7).1 rfl

/-- C5 counterexample: `updateNote` merges arbitrary supplied fields,
including `id`: after creating a note and updating it with the partial
fields `{id: "evil"}`, the stored note's id is "evil", no longer the id
assigned at creation. -/
theorem update_overwrites_id_cex :
    (createNote .ls ⟨[], .notes []⟩ 1 "a" false).bind
        (fun p => updateNote .ls p.2 (some (mkNoteId 1 "a"))
          { id := some "evil" } 2 false)
      = .ok (some ⟨"evil", "Untitled", "", 1, 2⟩,
             ⟨[], .notes [⟨"evil", "Untitled", "", 1, 2⟩]⟩) ∧
    "evil" ≠ mkNoteId 1 "a" := by
  refine ⟨rfl, ?_⟩
  decide

/-- C5 amended: over any trace of `createNote` (with generated ids fresh
for the store, the spec's uniqueness-in-probability assumption),
`updateNote` carrying only `title`/`content` partial fields (as the app
issues), and `deleteNote`, under either backend variant with succeeding
writes: if the initial store has duplicate-free ids, every reachable
store keeps duplicate-free ids, and every stored note carries the id
and `createdAt` it was given at creation (or already had initially). -/
theorem runOps_id_createdAt_invariant (c : Ctx) (ops : List Op) (w : World)
    (hnd : ((notesOf c w).map Note.id).Nodup)
    (hf : freshOps c w ops = true) :
    ((notesOf c (runOps c w ops)).map Note.id).Nodup ∧
    ∀ n ∈ notesOf c (runOps c w ops), Originates (notesOf c w) ops n := by
  induction ops generalizing w with
  | nil => exact ⟨hnd, fun n hn => Or.inl ⟨n, hn, rfl, rfl⟩⟩
  | cons op rest ih =>
      rw [freshOps, Bool.and_eq_true] at hf
      obtain ⟨hstep_nd, hstep_orig⟩ := stepOp_invariant c w op hnd hf.1
      obtain ⟨hrun_nd, hrun_orig⟩ := ih (stepOp c w op) hstep_nd hf.2
      refine ⟨hrun_nd, fun n hn => ?_⟩
      rcases hrun_orig n hn with ⟨m, hm, hid1, hca1⟩ |
          ⟨now, rand, hmem, hid1, hca1⟩
      · rcases hstep_orig m hm with ⟨m0, hm0, hid2, hca2⟩ |
            ⟨now, rand, hmem2, hid2, hca2⟩
        · exact Or.inl ⟨m0, hm0, hid1.trans hid2, hca1.trans hca2⟩
        · refine Or.inr ⟨now, rand, ?_, hid1.trans hid2, hca1.trans hca2⟩
          rw [List.mem_cons]
          exact Or.inl (List.mem_singleton.mp hmem2)
      · exact Or.inr ⟨now, rand, List.mem_cons_of_mem op hmem, hid1, hca1⟩

theorem runOps_id_createdAt_invariant_witness :
    ((notesOf .ls (runOps .ls ⟨[], .notes []⟩
        [.create 1 "a", .update (mkNoteId 1 "a") (some "T") none 2,
         .del (mkNoteId 1 "a")])).map Note.id).Nodup ∧
    ∀ n ∈ notesOf .ls (runOps .ls ⟨[], .notes []⟩
        [.create 1 "a", .update (mkNoteId 1 "a") (some "T") none 2,
         .del (mkNoteId 1 "a")]),
      Originates (notesOf .ls ⟨[], .notes []⟩)
        [.create 1 "a", .update (mkNoteId 1 "a") (some "T") none 2,
         .del (mkNoteId 1 "a")] n :=
  runOps_id_createdAt_invariant .ls
    [.create 1 "a", .update (mkNoteId 1 "a") (some "T") none 2,
     .del (mkNoteId 1 "a")]
    ⟨[], .notes []⟩ (by decide) (by decide)

end NotesApp
